import Mathlib

/-!
Shallow embedding of the dynamic agent workflow of `sift-ai-agent-be`
(`app/agents/graph.py`, `app/agents/planner_agent.py`,
`app/utils/stream.py`, `app/agents/nodes/scraper_agent.py`,
`app/agents/nodes/compare_agent.py`, `app/agents/nodes/final_report_agent.py`),
together with proofs about the dispatcher loop, error handling, progress
reporting, fallback planning and reference resolution.

Python dictionaries are modelled as insertion-ordered association lists,
Python values as the inductive type `Val`, and the per-action agent
coroutines (which perform network and LLM calls) as abstract handlers that
either return a result value or raise an exception (`Except`).
-/

namespace Sift

/-- A Python value as it occurs in the workflow state: `None`, strings,
integers, lists, and insertion-ordered dicts with string keys. -/
inductive Val where
  | null : Val
  | str : String → Val
  | int : Int → Val
  | list : List Val → Val
  | dict : List (String × Val) → Val
deriving Repr, BEq

/-- Python truthiness (`if x:`) for the embedded values: `None`, `""`, `0`,
`[]` and `{}` are falsy, everything else truthy. -/
def Val.isTruthy : Val → Bool
  | .null => false
  | .str s => s ≠ ""
  | .int n => n ≠ 0
  | .list l => !l.isEmpty
  | .dict d => !d.isEmpty

/-- `d[k]` lookup in an insertion-ordered dict: first (and in well-formed
dicts only) binding of the key. -/
def dictGet (d : List (String × Val)) (k : String) : Option Val :=
  match d with
  | [] => none
  | (k2, v) :: rest => if k2 = k then some v else dictGet rest k

/-- `d[k] = v` assignment on a Python dict: overwrites in place if the key is
present, otherwise appends the new binding at the end (insertion order). -/
def dictSet (d : List (String × Val)) (k : String) (v : Val) : List (String × Val) :=
  match d with
  | [] => [(k, v)]
  | (k2, v2) :: rest =>
      if k2 = k then (k2, v) :: rest else (k2, v2) :: dictSet rest k v

/-- The keys of a dict, in insertion order. -/
def dictKeys (d : List (String × Val)) : List String := d.map Prod.fst

/-- A task of the research plan (`planner_agent.py`, class `Task`):
`action`, optional `query`, optional `from_task` reference, optional
`description`, and `url_index` (Pydantic default `0`). -/
structure Task where
  action : String
  query : Option String := none
  from_task : Option String := none
  description : Option String := none
  url_index : Option Int := some 0
deriving Repr, BEq

/-- A research plan (`planner_agent.py`, class `ResearchPlan`):
`intent`, ordered `tasks`, optional `reasoning`. -/
structure ResearchPlan where
  intent : String
  tasks : List Task
  reasoning : Option String := none
deriving Repr, BEq

/-- The workflow state (`graph.py`, class `AgentState`). `task_results` is
the insertion-ordered dict from stringified task index to result record;
`final_report` starts as `None` (`Val.null`). -/
structure AgentState where
  query : String
  plan : Option ResearchPlan
  task_results : List (String × Val)
  current_task_index : Nat
  final_report : Val := .null
  error : Val := .null
  session_id : Option String := none
  deep_research : Bool := false
  report_id : Option String := none
deriving Repr, BEq

/-- `plan.get("tasks", [])` guarded as in the source: no plan (or a plan
that is not a dict) yields the empty task list. -/
def planTasks : Option ResearchPlan → List Task
  | none => []
  | some p => p.tasks

/-- An agent handler (`search_agent_node`, `scraper_agent_node`, ...): given
the state and the task it either returns a result record or raises an
exception carrying the message `str(e)`. The real handlers perform network
and LLM calls, so they are abstract here; none of them writes to
`task_results` or `current_task_index`. -/
def Handler : Type := AgentState → Task → Except String Val

/-- Abstract implementations of the six registered agents, used to build
the dispatch table `AGENT_DISPATCH`. -/
structure AgentImpls where
  search : Handler
  scrape : Handler
  summarize : Handler
  sentiment : Handler
  compare : Handler
  final_report : Handler

/-- The action names registered in `AGENT_DISPATCH` (`graph.py` lines
37-44), in source order. -/
def agentDispatchKeys : List String :=
  [("search"), ("scrape"), ("summarize"), ("sentiment"), ("compare"), ("final_report")]

/-- `AGENT_DISPATCH.get(action)` (`graph.py`): the handler registered for
the action name, or `none` for an unregistered action. -/
def AGENT_DISPATCH (impls : AgentImpls) (action : String) : Option Handler :=
  if action = ("search") then some impls.search
  else if action = ("scrape") then some impls.scrape
  else if action = ("summarize") then some impls.summarize
  else if action = ("sentiment") then some impls.sentiment
  else if action = ("compare") then some impls.compare
  else if action = ("final_report") then some impls.final_report
  else none

/-- `task_executor_node` (`graph.py` lines 47-101), parametrised by the
dispatch table. If all tasks are done the state is returned unchanged.
Otherwise the handler for the current task's action is looked up: an
unregistered action stores `{"error": "Unknown action: <action>"}`; a
handler result is stored as is; an exception escaping the handler is caught
and stored as `{"error": str(e)}`. In every task-processing case
`current_task_index` is incremented by exactly one. -/
def task_executor_node (dispatch : String → Option Handler) (state : AgentState) :
    AgentState :=
  let tasks := planTasks state.plan
  let current_idx := state.current_task_index
  if h : current_idx < tasks.length then
    let task := tasks.get ⟨current_idx, h⟩
    let result : Val :=
      match dispatch task.action with
      | none => .dict [(("error"), .str (("Unknown action: ") ++ task.action))]
      | some agent_func =>
          match agent_func state task with
          | .ok r => r
          | .error e => .dict [(("error"), .str e)]
    { state with
        task_results := dictSet state.task_results (toString current_idx) result
        current_task_index := current_idx + 1 }
  else
    state

/-- `should_continue_tasks` (`graph.py` lines 104-121): `"continue"` while
`current_task_index < len(tasks)`, otherwise `"end"`. -/
def should_continue_tasks (state : AgentState) : String :=
  if state.current_task_index < (planTasks state.plan).length then ("continue")
  else ("end")

/-- The dispatcher loop of the compiled graph (`create_research_graph`):
the executor node runs, then the conditional edge loops back while
`should_continue_tasks` returns `"continue"`. Fuel-indexed so that
termination is a theorem, not an assumption: `none` means the fuel was
exhausted before the `"end"` decision. The returned number counts the task
attempts, i.e. the executor invocations that found `current_task_index <
len(tasks)` and processed a task. -/
def dispatchLoop (dispatch : String → Option Handler) :
    Nat → AgentState → Option (AgentState × Nat)
  | 0, _ => none
  | fuel + 1, state =>
      let attempted : Nat :=
        if state.current_task_index < (planTasks state.plan).length then 1 else 0
      let s := task_executor_node dispatch state
      if should_continue_tasks s = ("continue") then
        match dispatchLoop dispatch fuel s with
        | none => none
        | some (s2, m) => some (s2, attempted + m)
      else
        some (s, attempted)

/-- The scan of `extract_final_report` (`graph.py` lines 137-140): walk the
result records in insertion order and return the value under key
`"final_report"` of the first record that contains that key (`"final_report"
in result` on a dict tests key membership); `none` when no record contains
the key. -/
def findFinalReport : List (String × Val) → Option Val
  | [] => none
  | (_, r) :: rest =>
      match r with
      | .dict fields =>
          match dictGet fields ("final_report") with
          | some v => some v
          | none => findFinalReport rest
      | _ => findFinalReport rest

/-- `extract_final_report` (`graph.py` lines 124-142): copy the first
`"final_report"` value found in `task_results` into the state's
`final_report` field; when no record carries the key the state is returned
unchanged. -/
def extract_final_report (state : AgentState) : AgentState :=
  match findFinalReport state.task_results with
  | some v => { state with final_report := v }
  | none => state

/-- The record returned by `final_report_node` when an exception escapes its
body (`final_report_agent.py` line 285): `{"final_report": None, "error":
str(e)}`. -/
def final_report_failure_record (e : String) : Val :=
  .dict [(("final_report"), .null), (("error"), .str e)]

/-- `calculate_progress` (`stream.py` lines 58-97), over exact rationals.
With no tasks the progress is a per-step estimate; otherwise total steps are
`len(tasks) + 2` and the percentage is `min((completed / total) * 100, 100)`
with `completed` equal to `1` after planning, `1 + current_task_index` for
the executor, and `len(tasks) + 1` for finalize. -/
def calculate_progress (state : AgentState) (step_name : String) : ℚ :=
  let tasks := planTasks state.plan
  let current_task_index := state.current_task_index
  if tasks.isEmpty then
    if step_name = ("planner") then 10
    else if step_name = ("task_executor") then 50
    else if step_name = ("finalize") then 90
    else 0
  else
    let total_steps : ℚ := tasks.length + 2
    let completed_steps : ℚ :=
      if step_name = ("planner") then 1
      else if step_name = ("task_executor") then 1 + current_task_index
      else if step_name = ("finalize") then tasks.length + 1
      else 0
    min ((completed_steps / total_steps) * 100) 100

/-- The progress percentages streamed by `stream_graph_output` for the
executor loop and the finalize node: after each `task_executor` run the
progress of the streamed (post-node) state, and after the loop ends the
progress of the finalize output. Fuel-indexed like `dispatchLoop`. -/
def executorProgressList (dispatch : String → Option Handler) :
    Nat → AgentState → List ℚ
  | 0, _ => []
  | fuel + 1, state =>
      let s := task_executor_node dispatch state
      calculate_progress s ("task_executor") ::
        (if should_continue_tasks s = ("continue") then
          executorProgressList dispatch fuel s
        else
          [calculate_progress (extract_final_report s) ("finalize")])

/-- The full sequence of progress percentages reported over a run, starting
from the streamed post-planner state. -/
def runProgressList (dispatch : String → Option Handler) (fuel : Nat)
    (state : AgentState) : List ℚ :=
  calculate_progress state ("planner") :: executorProgressList dispatch fuel state

/-- Python's `\s` class (ASCII part): space, tab, newline, carriage return,
vertical tab, form feed. -/
def pyIsSpace (c : Char) : Bool :=
  c = ' ' || c = '\t' || c = '\n' || c = '\r' || c = '\x0b' || c = '\x0c'

/-- `s.split(sep)` for a one-character separator, on character lists:
`"task:0".split(":") = ["task", "0"]`. -/
def splitOnChar (sep : Char) : List Char → List (List Char)
  | [] => [[]]
  | c :: cs =>
      let r := splitOnChar sep cs
      if c = sep then [] :: r
      else
        match r with
        | [] => [[c]]
        | h :: t => (c :: h) :: t

/-- `s.split(sep)` on strings, via `splitOnChar`. -/
def pySplit (s : String) (sep : Char) : List String :=
  (splitOnChar sep s.toList).map String.mk

/-- `s.strip()`: drop Python whitespace from both ends. -/
def pyStrip (s : String) : String :=
  String.mk (((s.toList.dropWhile pyIsSpace).reverse.dropWhile pyIsSpace).reverse)

/-- `sep in s` for a one-character needle. -/
def pyContainsChar (s : String) (c : Char) : Bool :=
  s.toList.contains c

/-- Match of the regex `https?://[^\s]+` anchored at the start of the
character list: the scheme followed by a maximal nonempty run of non-space
characters (greedy `s?` tries `https` before `http`). -/
def matchUrlAt (cs : List Char) : Option String :=
  if (("https://").toList).isPrefixOf cs then
    let run := (cs.drop 8).takeWhile (fun c => !pyIsSpace c)
    if run.isEmpty then none else some (String.mk ((("https://").toList) ++ run))
  else if (("http://").toList).isPrefixOf cs then
    let run := (cs.drop 7).takeWhile (fun c => !pyIsSpace c)
    if run.isEmpty then none else some (String.mk ((("http://").toList) ++ run))
  else none

/-- `re.search(r"(https?://[^\s]+)", s)`: the leftmost match of the URL
pattern, scanning positions left to right. -/
def searchUrl : List Char → Option String
  | [] => none
  | c :: cs =>
      match matchUrlAt (c :: cs) with
      | some m => some m
      | none => searchUrl cs

/-- `_create_fallback_plan` (`planner_agent.py` lines 170-209): a query
containing a URL match yields the 4-task direct-scraping plan with intent
`product_analysis`; any other query yields the 5-task search-then-scrape
plan with intent `product_research`. -/
def _create_fallback_plan (query : String) : ResearchPlan :=
  if (searchUrl query.toList).isSome then
    { intent := ("product_analysis")
      tasks := [
        { action := ("scrape"), query := some query },
        { action := ("summarize"), from_task := some ("task:0") },
        { action := ("sentiment"), from_task := some ("task:0") },
        { action := ("final_report") }]
      reasoning := some ("Fallback plan (LLM unavailable)") }
  else
    { intent := ("product_research")
      tasks := [
        { action := ("search"), query := some query },
        { action := ("scrape"), from_task := some ("task:0") },
        { action := ("summarize"), from_task := some ("task:1") },
        { action := ("sentiment"), from_task := some ("task:1") },
        { action := ("final_report") }]
      reasoning := some ("Fallback plan (LLM unavailable)") }

/-- `.get(k)` on a result record: records stored in `task_results` are
dicts; on a dict this is key lookup (missing key gives `None`). -/
def valGet (v : Val) (k : String) : Option Val :=
  match v with
  | .dict fields => dictGet fields k
  | _ => none

/-- The URL-resolution prefix of `scraper_agent_node` (`scraper_agent.py`
lines 23-63): first search the task's own `query` for a URL; otherwise
follow `from_task` (`"task:<idx>"`), and from the referenced result take
`product_urls[url_index]` when the index is in range, `product_urls[0]`
when it is out of range and the list is nonempty, `None` when the list is
empty, and when the result has no `product_urls` list fall back to
`prev.get("primary_url") or prev.get("url")`. The value is `Val.null` when
no URL was resolved (the node then returns `{"error": "No URL provided"}`). -/
def scraper_resolve_url (state : AgentState) (task : Task) : Val :=
  let url1 : Val :=
    match task.query with
    | some q =>
        if q ≠ "" then
          match searchUrl q.toList with
          | some u => .str u
          | none => .null
        else .null
    | none => .null
  if url1.isTruthy then url1
  else
    match task.from_task with
    | none => .null
    | some ft =>
        if ft ≠ "" && pyContainsChar ft ':' then
          let task_idx := (pySplit ft ':').getD 1 ("")
          let prev := (dictGet state.task_results task_idx).getD (.dict [])
          match valGet prev ("product_urls") with
          | some (.list urls) =>
              let url_index : Int := task.url_index.getD 0
              if 0 ≤ url_index ∧ url_index < (urls.length : Int) then
                urls.getD url_index.toNat .null
              else
                if !urls.isEmpty then urls.getD 0 .null else .null
          | _ =>
              let p := (valGet prev ("primary_url")).getD .null
              if p.isTruthy then p else (valGet prev ("url")).getD .null
        else .null

/-- The record `scraper_agent_node` returns when no URL was resolved
(`scraper_agent.py` line 63). -/
def scraper_no_url_record : Val := .dict [(("error"), .str ("No URL provided"))]

/-- The product-collection prefix of `compare_agent_node`
(`compare_agent.py` lines 23-38): split `from_task` on commas, strip each
reference, take the index after the colon, and collect the truthy
`product_data` values of the referenced results in order. -/
def compare_collect (state : AgentState) (task : Task) : List Val :=
  match task.from_task with
  | none => []
  | some ft =>
      if ft ≠ "" then
        (pySplit ft ',').foldl (fun products ref =>
          let r := pyStrip ref
          if pyContainsChar r ':' then
            let task_idx := (pySplit r ':').getD 1 ("")
            let prev := (dictGet state.task_results task_idx).getD (.dict [])
            let product_data := (valGet prev ("product_data")).getD .null
            if product_data.isTruthy then products ++ [product_data] else products
          else products) []
      else []

/-- The record returned by `compare_agent_node` when fewer than two products
were collected (`compare_agent.py` lines 40-42). -/
def insufficient_products_record : Val :=
  .dict [(("comparison"), .null), (("error"), .str ("Insufficient products for comparison"))]

/-- The early-exit check of `compare_agent_node`: with fewer than two
collected products the insufficient-data record is returned (no exception);
otherwise the node goes on to the LLM call. -/
def compare_agent_check (state : AgentState) (task : Task) : Option Val :=
  if (compare_collect state task).length < 2 then some insufficient_products_record
  else none

/-- Independent per-reference resolver used to characterise
`compare_collect`: a single `from_task` reference yields the referenced
result's `product_data` exactly when the reference contains a colon and the
value is truthy. -/
def resolveProductData (state : AgentState) (ref : String) : Option Val :=
  if pyContainsChar ref ':' then
    let task_idx := (pySplit ref ':').getD 1 ("")
    let prev := (dictGet state.task_results task_idx).getD (.dict [])
    let pd := (valGet prev ("product_data")).getD .null
    if pd.isTruthy then some pd else none
  else none

/-- The result record the executor stores for one task (`graph.py` lines
74-96): the unknown-action record, the handler's return value, or the
caught-exception record. -/
def executorRecord (dispatch : String → Option Handler) (state : AgentState)
    (task : Task) : Val :=
  match dispatch task.action with
  | none => .dict [(("error"), .str (("Unknown action: ") ++ task.action))]
  | some agent_func =>
      match agent_func state task with
      | .ok r => r
      | .error e => .dict [(("error"), .str e)]

/-- The completed-step count in the words of the specification (progress
section): 1 after planning, `1 + current_task_index` while executing,
`len(tasks) + 1` when finalizing, used to compare `calculate_progress`
against the spec's formula `min(100, 100 * completed / (N + 2))`. -/
def spec_completed_steps (state : AgentState) (step_name : String) : ℚ :=
  if step_name = ("planner") then 1
  else if step_name = ("task_executor") then 1 + state.current_task_index
  else if step_name = ("finalize") then (planTasks state.plan).length + 1
  else 0

/-- Abbreviation for the progress value `min((c / (n + 2)) * 100, 100)`. -/
def progAt (n c : ℚ) : ℚ := min ((c / (n + 2)) * 100) 100

/-! Concrete fixtures used by witness and counterexample theorems. -/

/-- A handler that always raises (property-test style: total handler
failure). -/
def failingHandler : Handler := fun _ _ => .error ("handler failure")

/-- Agent implementations in which every registered handler fails. -/
def allFailingAgents : AgentImpls :=
  ⟨failingHandler, failingHandler, failingHandler,
   failingHandler, failingHandler, failingHandler⟩

/-- The dispatch table built from the always-failing implementations. -/
def failingDispatch : String → Option Handler := AGENT_DISPATCH allFailingAgents

/-- A 3-task plan of registered actions. -/
def samplePlan3 : ResearchPlan :=
  { intent := ("product_research")
    tasks := [
      { action := ("search"), query := some ("widgets") },
      { action := ("scrape"), from_task := some ("task:0") },
      { action := ("final_report") }] }

/-- Post-planner state for `samplePlan3`. -/
def sampleState3 : AgentState :=
  { query := ("widgets"), plan := some samplePlan3, task_results := []
    current_task_index := 0 }

/-- A 1-task plan. -/
def samplePlan1 : ResearchPlan :=
  { intent := ("product_research")
    tasks := [{ action := ("search"), query := some ("widgets") }] }

/-- Post-planner state for `samplePlan1`. -/
def sampleState1 : AgentState :=
  { query := ("widgets"), plan := some samplePlan1, task_results := []
    current_task_index := 0 }

/-- A plan whose first task has an unregistered action. -/
def bogusPlan : ResearchPlan :=
  { intent := ("product_research")
    tasks := [{ action := ("bogus") }, { action := ("final_report") }] }

/-- Post-planner state for `bogusPlan`. -/
def bogusState : AgentState :=
  { query := ("q"), plan := some bogusPlan, task_results := []
    current_task_index := 0 }

/-- A finished run in which no result record carries `"final_report"`. -/
def noReportState : AgentState :=
  { query := ("q"), plan := some samplePlan1
    task_results := [(("0"), .dict [(("error"), .str ("handler failure"))])]
    current_task_index := 1 }

/-- A finished run in which the failure record of `final_report_node` (value
`None` under `"final_report"`) precedes a usable report record. -/
def nullReportState : AgentState :=
  { query := ("q"), plan := some samplePlan3
    task_results := [
      (("0"), .dict [(("error"), .str ("x"))]),
      (("1"), final_report_failure_record ("boom")),
      (("2"), .dict [(("final_report"), .str ("usable report"))])]
    current_task_index := 3 }

/-- A prior result exposing an empty `product_urls` list next to a
`primary_url` single-value field. -/
def emptyUrlsResult : Val :=
  .dict [(("product_urls"), .list []), (("primary_url"), .str ("http://a"))]

/-- State whose task 0 produced `emptyUrlsResult`. -/
def emptyUrlsState : AgentState :=
  { query := ("q"), plan := none, task_results := [(("0"), emptyUrlsResult)]
    current_task_index := 1 }

/-- A scrape task referencing task 0 with the default `url_index`. -/
def scrapeRefTask : Task := { action := ("scrape"), from_task := some ("task:0") }

/-- A prior result exposing a two-element `product_urls` list. -/
def twoUrlsResult : Val :=
  .dict [(("product_urls"), .list [.str ("http://a"), .str ("http://b")])]

/-- State whose task 0 produced `twoUrlsResult`. -/
def twoUrlsState : AgentState :=
  { query := ("q"), plan := none, task_results := [(("0"), twoUrlsResult)]
    current_task_index := 1 }

/-- A scrape task referencing task 0 with out-of-range `url_index` 5. -/
def scrapeRefTaskIdx5 : Task :=
  { action := ("scrape"), from_task := some ("task:0"), url_index := some 5 }

/-- Results at indices 0, 1 and 2 of which 0 and 2 carry product data. -/
def compareState : AgentState :=
  { query := ("q"), plan := none
    task_results := [
      (("0"), .dict [(("product_data"), .dict [(("title"), .str ("A"))])]),
      (("1"), .dict [(("results"), .list [])]),
      (("2"), .dict [(("product_data"), .dict [(("title"), .str ("B"))])])]
    current_task_index := 3 }

/-- A compare task referencing tasks 0 and 2. -/
def compareTask : Task := { action := ("compare"), from_task := some ("task:0,task:2") }

/-- A compare task referencing only task 0. -/
def compareTaskShort : Task := { action := ("compare"), from_task := some ("task:0") }

/-- Decimal accumulation step, used to parse the output of `Nat.repr` and
prove stringified task indices distinct. -/
def decimalStep (a : Nat) (c : Char) : Nat := a * 10 + (c.toNat - 48)

/-! ### Helper lemmas -/

lemma digitChar_toNat_sub : ∀ d : Nat, d < 10 → (Nat.digitChar d).toNat - 48 = d := by
  decide

lemma toDigitsCore_ten_succ (f n : Nat) (acc : List Char) :
    Nat.toDigitsCore 10 (f + 1) n acc =
      if n / 10 = 0 then Nat.digitChar (n % 10) :: acc
      else Nat.toDigitsCore 10 f (n / 10) (Nat.digitChar (n % 10) :: acc) := rfl

lemma foldl_toDigitsCore (f : Nat) : ∀ (n : Nat) (acc : List Char), n < f →
    (Nat.toDigitsCore 10 f n acc).foldl decimalStep 0 = acc.foldl decimalStep n := by
  induction f with
  | zero => intro n acc h; exact absurd h (Nat.not_lt_zero n)
  | succ f ih =>
      intro n acc h
      rw [toDigitsCore_ten_succ]
      have hd : decimalStep 0 (Nat.digitChar (n % 10)) = n % 10 := by
        unfold decimalStep
        rw [digitChar_toNat_sub (n % 10) (Nat.mod_lt _ (by norm_num))]
        omega
      by_cases h0 : n / 10 = 0
      · rw [if_pos h0]
        simp only [List.foldl_cons, hd]
        have : n % 10 = n := by omega
        rw [this]
      · rw [if_neg h0]
        have hlt : n / 10 < f := by
          have : n / 10 < n := Nat.div_lt_self (by omega) (by norm_num)
          omega
        rw [ih (n / 10) _ hlt]
        simp only [List.foldl_cons]
        have : decimalStep (n / 10) (Nat.digitChar (n % 10)) = n := by
          unfold decimalStep
          rw [digitChar_toNat_sub (n % 10) (Nat.mod_lt _ (by norm_num))]
          omega
        rw [this]

lemma parse_natRepr (n : Nat) : (Nat.repr n).data.foldl decimalStep 0 = n :=
  foldl_toDigitsCore (n + 1) n [] (Nat.lt_succ_self n)

lemma natToString_injective {m n : Nat} (h : toString m = toString n) : m = n := by
  have hd : (Nat.repr m).data = (Nat.repr n).data := congrArg String.data h
  have hm := parse_natRepr m
  rw [hd, parse_natRepr n] at hm
  exact hm.symm

lemma toString_nat_notMem_range (i : Nat) :
    toString i ∉ (List.range i).map (fun j => toString j) := by
  intro hmem
  rcases List.mem_map.mp hmem with ⟨j, hj, hje⟩
  rw [List.mem_range] at hj
  exact absurd (natToString_injective hje) (Nat.ne_of_lt hj)

lemma dictGet_dictSet_self (d : List (String × Val)) (k : String) (v : Val) :
    dictGet (dictSet d k v) k = some v := by
  induction d with
  | nil => simp [dictSet, dictGet]
  | cons p rest ih =>
      obtain ⟨k2, v2⟩ := p
      by_cases h : k2 = k
      · simp [dictSet, dictGet, h]
      · simp [dictSet, dictGet, h, ih]

lemma dictGet_dictSet_ne (d : List (String × Val)) (k k2 : String) (v : Val)
    (h : k ≠ k2) : dictGet (dictSet d k v) k2 = dictGet d k2 := by
  induction d with
  | nil => simp [dictSet, dictGet, h]
  | cons p rest ih =>
      obtain ⟨ka, va⟩ := p
      by_cases ha : ka = k
      · subst ha
        simp [dictSet, dictGet, h]
      · simp [dictSet, dictGet, ha, ih]

lemma dictSet_of_fresh (d : List (String × Val)) (k : String) (v : Val)
    (h : k ∉ dictKeys d) : dictSet d k v = d ++ [(k, v)] := by
  induction d with
  | nil => rfl
  | cons p rest ih =>
      obtain ⟨ka, va⟩ := p
      have hka : ka ≠ k := by
        intro he
        exact h (by simp [dictKeys, he])
      have hrest : k ∉ dictKeys rest := by
        intro he
        exact h (by simp [dictKeys] at he ⊢; exact Or.inr he)
      simp [dictSet, hka, ih hrest]

lemma dictGet_append_left (d d2 : List (String × Val)) (k : String) (v : Val)
    (h : dictGet d k = some v) : dictGet (d ++ d2) k = some v := by
  induction d with
  | nil => simp [dictGet] at h
  | cons p rest ih =>
      obtain ⟨ka, va⟩ := p
      by_cases ha : ka = k
      · simp [dictGet, ha] at h ⊢
        exact h
      · simp [dictGet, ha] at h ⊢
        exact ih h

lemma task_executor_node_of_done {d : String → Option Handler} {s : AgentState}
    (h : ¬ s.current_task_index < (planTasks s.plan).length) :
    task_executor_node d s = s := by
  simp [task_executor_node, h]

lemma task_executor_node_of_lt {d : String → Option Handler} {s : AgentState}
    (h : s.current_task_index < (planTasks s.plan).length) :
    task_executor_node d s =
      { s with
          task_results := dictSet s.task_results (toString s.current_task_index)
            (executorRecord d s ((planTasks s.plan).get ⟨s.current_task_index, h⟩))
          current_task_index := s.current_task_index + 1 } := by
  simp [task_executor_node, executorRecord, h]

lemma executor_plan (d : String → Option Handler) (s : AgentState) :
    (task_executor_node d s).plan = s.plan := by
  by_cases h : s.current_task_index < (planTasks s.plan).length
  · rw [task_executor_node_of_lt h]
  · rw [task_executor_node_of_done h]

lemma executor_idx_of_lt (d : String → Option Handler) (s : AgentState)
    (h : s.current_task_index < (planTasks s.plan).length) :
    (task_executor_node d s).current_task_index = s.current_task_index + 1 := by
  rw [task_executor_node_of_lt h]

lemma should_continue_of_lt {s : AgentState}
    (h : s.current_task_index < (planTasks s.plan).length) :
    should_continue_tasks s = ("continue") := by
  simp [should_continue_tasks, h]

lemma should_continue_of_done {s : AgentState}
    (h : ¬ s.current_task_index < (planTasks s.plan).length) :
    should_continue_tasks s = ("end") := by
  simp [should_continue_tasks, h]

lemma dispatchLoop_succ (d : String → Option Handler) (fuel : Nat) (s : AgentState) :
    dispatchLoop d (fuel + 1) s =
      if should_continue_tasks (task_executor_node d s) = ("continue") then
        match dispatchLoop d fuel (task_executor_node d s) with
        | none => none
        | some (s3, m) =>
            some (s3,
              (if s.current_task_index < (planTasks s.plan).length then 1 else 0) + m)
      else
        some (task_executor_node d s,
          if s.current_task_index < (planTasks s.plan).length then 1 else 0) := rfl

lemma dispatchLoop_of_done {d : String → Option Handler} {s : AgentState}
    (h : ¬ s.current_task_index < (planTasks s.plan).length) (fuel : Nat) :
    dispatchLoop d (fuel + 1) s = some (s, 0) := by
  have hsc : should_continue_tasks (task_executor_node d s) = ("end") := by
    rw [task_executor_node_of_done h]
    exact should_continue_of_done h
  rw [dispatchLoop_succ, hsc, if_neg (by decide), task_executor_node_of_done h,
    if_neg h]

lemma dispatchLoop_complete (d : String → Option Handler) :
    ∀ (fuel : Nat) (s : AgentState),
      (planTasks s.plan).length ≤ s.current_task_index + fuel →
      ∃ s2, dispatchLoop d (fuel + 1) s =
          some (s2, (planTasks s.plan).length - s.current_task_index) ∧
        s2.current_task_index = max s.current_task_index (planTasks s.plan).length ∧
        s2.plan = s.plan := by
  intro fuel
  induction fuel with
  | zero =>
      intro s hle
      simp only [Nat.add_zero] at hle
      have hdone : ¬ s.current_task_index < (planTasks s.plan).length := by omega
      refine ⟨s, ?_, ?_, rfl⟩
      · rw [dispatchLoop_of_done hdone 0, Nat.sub_eq_zero_of_le hle]
      · omega
  | succ fuel ih =>
      intro s hle
      by_cases hdone : s.current_task_index < (planTasks s.plan).length
      · have hplan : (task_executor_node d s).plan = s.plan := executor_plan d s
        have hidx : (task_executor_node d s).current_task_index =
            s.current_task_index + 1 := executor_idx_of_lt d s hdone
        by_cases hc : (task_executor_node d s).current_task_index <
            (planTasks (task_executor_node d s).plan).length
        · have hsc : should_continue_tasks (task_executor_node d s) = ("continue") :=
            should_continue_of_lt hc
          obtain ⟨s2, hrec, hidx2, hplan2⟩ := ih (task_executor_node d s)
            (by rw [hplan, hidx]; omega)
          refine ⟨s2, ?_, ?_, by rw [hplan2, hplan]⟩
          · rw [dispatchLoop_succ, hsc, if_pos rfl, hrec, if_pos hdone]
            have harith : 1 + ((planTasks (task_executor_node d s).plan).length -
                (task_executor_node d s).current_task_index) =
                (planTasks s.plan).length - s.current_task_index := by
              rw [hplan, hidx]; omega
            dsimp only
            rw [harith]
          · rw [hplan, hidx] at hc hidx2
            rw [hidx2, Nat.max_eq_right (by omega), Nat.max_eq_right (by omega)]
        · have hsc : should_continue_tasks (task_executor_node d s) = ("end") :=
            should_continue_of_done hc
          rw [hplan, hidx] at hc
          refine ⟨task_executor_node d s, ?_, ?_, hplan⟩
          · rw [dispatchLoop_succ, hsc, if_neg (by decide), if_pos hdone]
            have harith : (planTasks s.plan).length - s.current_task_index = 1 := by
              omega
            rw [harith]
          · rw [hidx, Nat.max_eq_right (by omega)]
            omega
      · refine ⟨s, ?_, by omega, rfl⟩
        rw [dispatchLoop_of_done hdone (fuel + 1),
          Nat.sub_eq_zero_of_le (by omega)]

/-! ### Claim theorems -/

/-- C1: for every plan with N tasks the dispatcher loop performs exactly N
task attempts and terminates. Every executor invocation with
`current_task_index < N` increments the index by exactly one (whatever the
handler does), the continue/end decision yields `"end"` exactly when the
index equals N (for the indices `≤ N` that occur in a run), and from a
post-planner state the loop reaches the end decision within N + 1 executor
passes with exactly N task attempts, for arbitrary handlers — in
particular when every handler fails. -/
theorem dispatcher_loop_exactly_n_attempts
    (dispatch : String → Option Handler) (s : AgentState)
    (h0 : s.current_task_index = 0) :
    (∀ t : AgentState, t.current_task_index < (planTasks t.plan).length →
        (task_executor_node dispatch t).current_task_index
          = t.current_task_index + 1) ∧
    (∀ t : AgentState, t.current_task_index ≤ (planTasks t.plan).length →
        (should_continue_tasks t = ("end") ↔
          t.current_task_index = (planTasks t.plan).length)) ∧
    ∃ s2, dispatchLoop dispatch ((planTasks s.plan).length + 1) s
          = some (s2, (planTasks s.plan).length) ∧
        s2.current_task_index = (planTasks s.plan).length := by
  refine ⟨fun t ht => executor_idx_of_lt dispatch t ht, fun t ht => ?_, ?_⟩
  · constructor
    · intro he
      by_contra hne
      have hlt : t.current_task_index < (planTasks t.plan).length :=
        lt_of_le_of_ne ht hne
      rw [should_continue_of_lt hlt] at he
      exact absurd he (by decide)
    · intro he
      exact should_continue_of_done (by omega)
  · obtain ⟨s2, hloop, hidx, _⟩ :=
      dispatchLoop_complete dispatch (planTasks s.plan).length s (by omega)
    rw [h0, Nat.sub_zero] at hloop
    rw [h0, Nat.max_eq_right (Nat.zero_le _)] at hidx
    exact ⟨s2, hloop, hidx⟩

/-- Witness for C1: a 3-task plan under handlers that always fail performs
exactly 3 attempts and ends with `current_task_index = 3`. -/
theorem dispatcher_loop_exactly_n_attempts_witness :
    ∃ s2, dispatchLoop failingDispatch 4 sampleState3 = some (s2, 3) ∧
      s2.current_task_index = 3 :=
  (dispatcher_loop_exactly_n_attempts failingDispatch sampleState3 rfl).2.2

/-- C2: an exception escaping the invoked handler is caught at the
dispatcher boundary, recorded as `{"error": str(e)}` under key
`str(current_task_index)`, and the loop moves to the next task; the
executor's result is an ordinary state (the exception is not propagated). -/
theorem executor_catches_handler_exception
    (dispatch : String → Option Handler) (s : AgentState) (f : Handler) (e : String)
    (h : s.current_task_index < (planTasks s.plan).length)
    (hf : dispatch ((planTasks s.plan).get ⟨s.current_task_index, h⟩).action = some f)
    (he : f s ((planTasks s.plan).get ⟨s.current_task_index, h⟩) = .error e) :
    dictGet (task_executor_node dispatch s).task_results
        (toString s.current_task_index) = some (.dict [(("error"), .str e)]) ∧
    (task_executor_node dispatch s).current_task_index = s.current_task_index + 1 := by
  have hrec : executorRecord dispatch s
      ((planTasks s.plan).get ⟨s.current_task_index, h⟩)
      = .dict [(("error"), .str e)] := by
    unfold executorRecord
    rw [hf]
    dsimp only
    rw [he]
  rw [task_executor_node_of_lt h]
  exact ⟨by rw [hrec]; exact dictGet_dictSet_self _ _ _, rfl⟩

/-- Witness for C2: the failing search handler's exception is stored as the
error record of task 0 and the index advances to 1. -/
theorem executor_catches_handler_exception_witness :
    dictGet (task_executor_node failingDispatch sampleState3).task_results
        (toString (0 : Nat)) = some (.dict [(("error"), .str ("handler failure"))]) ∧
    (task_executor_node failingDispatch sampleState3).current_task_index = 1 :=
  executor_catches_handler_exception failingDispatch sampleState3 failingHandler
    ("handler failure") (by decide) rfl rfl

lemma AGENT_DISPATCH_eq_none (impls : AgentImpls) (a : String)
    (ha : a ∉ agentDispatchKeys) : AGENT_DISPATCH impls a = none := by
  simp only [agentDispatchKeys, List.mem_cons, List.not_mem_nil, or_false,
    not_or] at ha
  obtain ⟨h1, h2, h3, h4, h5, h6⟩ := ha
  simp [AGENT_DISPATCH, h1, h2, h3, h4, h5, h6]

/-- C7: a task whose action is not registered in `AGENT_DISPATCH` yields the
record `{"error": "Unknown action: <action>"}` at its own index, the index
advances, every other result entry is untouched, and when further tasks
remain the loop continues. -/
theorem executor_unknown_action
    (impls : AgentImpls) (s : AgentState)
    (h : s.current_task_index < (planTasks s.plan).length)
    (ha : ((planTasks s.plan).get ⟨s.current_task_index, h⟩).action ∉ agentDispatchKeys) :
    dictGet (task_executor_node (AGENT_DISPATCH impls) s).task_results
        (toString s.current_task_index)
      = some (.dict [(("error"), .str (("Unknown action: ")
          ++ ((planTasks s.plan).get ⟨s.current_task_index, h⟩).action))]) ∧
    (task_executor_node (AGENT_DISPATCH impls) s).current_task_index
      = s.current_task_index + 1 ∧
    (∀ k, k ≠ toString s.current_task_index →
      dictGet (task_executor_node (AGENT_DISPATCH impls) s).task_results k
        = dictGet s.task_results k) ∧
    (s.current_task_index + 1 < (planTasks s.plan).length →
      should_continue_tasks (task_executor_node (AGENT_DISPATCH impls) s)
        = ("continue")) := by
  have hrec : executorRecord (AGENT_DISPATCH impls) s
      ((planTasks s.plan).get ⟨s.current_task_index, h⟩)
      = .dict [(("error"), .str (("Unknown action: ")
          ++ ((planTasks s.plan).get ⟨s.current_task_index, h⟩).action))] := by
    unfold executorRecord
    rw [AGENT_DISPATCH_eq_none impls _ ha]
  refine ⟨?_, ?_, ?_, ?_⟩
  · rw [task_executor_node_of_lt h, hrec]
    exact dictGet_dictSet_self _ _ _
  · exact executor_idx_of_lt _ s h
  · intro k hk
    rw [task_executor_node_of_lt h]
    exact dictGet_dictSet_ne _ _ _ _ (Ne.symm hk)
  · intro hmore
    apply should_continue_of_lt
    rw [executor_plan, executor_idx_of_lt _ s h]
    exact hmore

/-- Witness for C7: the action `"bogus"` yields an unknown-action error
record at index 0 and the loop continues to the following task. -/
theorem executor_unknown_action_witness :
    dictGet (task_executor_node (AGENT_DISPATCH allFailingAgents) bogusState).task_results
        (toString (0 : Nat))
      = some (.dict [(("error"), .str ("Unknown action: bogus"))]) ∧
    (task_executor_node (AGENT_DISPATCH allFailingAgents) bogusState).current_task_index = 1 ∧
    should_continue_tasks (task_executor_node (AGENT_DISPATCH allFailingAgents) bogusState)
      = ("continue") := by
  obtain ⟨h1, h2, _, h4⟩ :=
    executor_unknown_action allFailingAgents bogusState (by decide) (by decide)
  exact ⟨h1, h2, h4 (by decide)⟩

lemma dispatchLoop_preserves (d : String → Option Handler) :
    ∀ (fuel : Nat) (s s2 : AgentState) (m : Nat),
      dictKeys s.task_results
        = (List.range s.current_task_index).map (fun j => toString j) →
      dispatchLoop d fuel s = some (s2, m) →
      ∀ k v, dictGet s.task_results k = some v →
        dictGet s2.task_results k = some v := by
  intro fuel
  induction fuel with
  | zero =>
      intro s s2 m _ hloop
      simp [dispatchLoop] at hloop
  | succ fuel ih =>
      intro s s2 m hkeys hloop k v hget
      by_cases hdone : s.current_task_index < (planTasks s.plan).length
      · have hfresh : toString s.current_task_index ∉ dictKeys s.task_results := by
          rw [hkeys]
          exact toString_nat_notMem_range _
        have hget1 : dictGet (task_executor_node d s).task_results k = some v := by
          rw [task_executor_node_of_lt hdone]
          dsimp only
          rw [dictSet_of_fresh _ _ _ hfresh]
          exact dictGet_append_left _ _ _ _ hget
        have hkeys1 : dictKeys (task_executor_node d s).task_results
            = (List.range (task_executor_node d s).current_task_index).map
                (fun j => toString j) := by
          rw [task_executor_node_of_lt hdone]
          dsimp only
          rw [dictSet_of_fresh _ _ _ hfresh, List.range_succ]
          simp only [dictKeys, List.map_append, List.map_cons, List.map_nil]
          rw [← hkeys]
          rfl
        rw [dispatchLoop_succ] at hloop
        by_cases hsc : should_continue_tasks (task_executor_node d s) = ("continue")
        · rw [if_pos hsc] at hloop
          cases hrec : dispatchLoop d fuel (task_executor_node d s) with
          | none => rw [hrec] at hloop; simp at hloop
          | some p =>
              obtain ⟨s3, m3⟩ := p
              rw [hrec] at hloop
              dsimp only at hloop
              cases hloop
              exact ih (task_executor_node d s) _ _ hkeys1 hrec k v hget1
        · rw [if_neg hsc] at hloop
          cases hloop
          exact hget1
      · rw [dispatchLoop_of_done hdone] at hloop
        cases hloop
        exact hget

/-- C8: `task_results` is append-only. With the run invariant that the keys
so far are exactly `str(0) .. str(current_task_index - 1)`, the executor
step appends exactly one new entry keyed `str(current_task_index)`, never
changes the value any existing key maps to, re-establishes the invariant,
and every entry present before any number of further loop steps is still
mapped to the same value afterwards. -/
theorem task_results_append_only
    (dispatch : String → Option Handler) (s : AgentState)
    (hfresh : toString s.current_task_index ∉ dictKeys s.task_results) :
    (s.current_task_index < (planTasks s.plan).length →
      ∃ v, (task_executor_node dispatch s).task_results
          = s.task_results ++ [(toString s.current_task_index, v)]) ∧
    (∀ k v, dictGet s.task_results k = some v →
      dictGet (task_executor_node dispatch s).task_results k = some v) ∧
    (dictKeys s.task_results
        = (List.range s.current_task_index).map (fun j => toString j) →
      dictKeys (task_executor_node dispatch s).task_results
        = (List.range (task_executor_node dispatch s).current_task_index).map
            (fun j => toString j)) ∧
    (dictKeys s.task_results
        = (List.range s.current_task_index).map (fun j => toString j) →
      ∀ (fuel : Nat) (s2 : AgentState) (m : Nat),
        dispatchLoop dispatch fuel s = some (s2, m) →
        ∀ k v, dictGet s.task_results k = some v →
          dictGet s2.task_results k = some v) := by
  refine ⟨?_, ?_, ?_, ?_⟩
  · intro h
    refine ⟨executorRecord dispatch s ((planTasks s.plan).get ⟨s.current_task_index, h⟩), ?_⟩
    rw [task_executor_node_of_lt h]
    dsimp only
    exact dictSet_of_fresh _ _ _ hfresh
  · intro k v hget
    by_cases h : s.current_task_index < (planTasks s.plan).length
    · rw [task_executor_node_of_lt h]
      dsimp only
      rw [dictSet_of_fresh _ _ _ hfresh]
      exact dictGet_append_left _ _ _ _ hget
    · rw [task_executor_node_of_done h]
      exact hget
  · intro hkeys
    by_cases h : s.current_task_index < (planTasks s.plan).length
    · rw [task_executor_node_of_lt h]
      dsimp only
      rw [dictSet_of_fresh _ _ _ hfresh, List.range_succ]
      simp only [dictKeys, List.map_append, List.map_cons, List.map_nil]
      rw [← hkeys]
      rfl
    · rw [task_executor_node_of_done h]
      exact hkeys
  · intro hkeys fuel s2 m hloop k v hget
    exact dispatchLoop_preserves dispatch fuel s s2 m hkeys hloop k v hget

/-- Witness for C8: from the fresh post-planner state the first executor
step appends exactly the entry for key `str(0)`. -/
theorem task_results_append_only_witness :
    ∃ v, (task_executor_node failingDispatch sampleState3).task_results
        = sampleState3.task_results ++ [((toString (0 : Nat)), v)] :=
  (task_results_append_only failingDispatch sampleState3
    (List.not_mem_nil _)).1 (by decide)

lemma findFinalReport_cons (k : String) (r : Val) (rest : List (String × Val)) :
    findFinalReport ((k, r) :: rest) =
      match valGet r ("final_report") with
      | some v => some v
      | none => findFinalReport rest := by
  cases r <;> rfl

lemma findFinalReport_eq_find? (l : List (String × Val)) :
    findFinalReport l
      = (l.find? fun p => (valGet p.2 ("final_report")).isSome).bind
          (fun p => valGet p.2 ("final_report")) := by
  induction l with
  | nil => rfl
  | cons p rest ih =>
      obtain ⟨k, r⟩ := p
      rw [findFinalReport_cons]
      cases hv : valGet r ("final_report") with
      | some v =>
          rw [List.find?_cons_of_pos _ (by simp [hv])]
          simp [hv]
      | none =>
          rw [List.find?_cons_of_neg _ (by simp [hv])]
          exact ih

lemma findFinalReport_append_of_none (pre rest : List (String × Val))
    (hpre : ∀ p ∈ pre, valGet p.2 ("final_report") = none) :
    findFinalReport (pre ++ rest) = findFinalReport rest := by
  induction pre with
  | nil => rfl
  | cons p pre2 ih =>
      obtain ⟨k, r⟩ := p
      rw [List.cons_append, findFinalReport_cons,
        hpre (k, r) (List.mem_cons_self _ _)]
      exact ih (fun q hq => hpre q (List.mem_cons_of_mem _ hq))

/-- C3 counterexample: after a run in which no result record carries the
`"final_report"` key, the finalize step leaves the state untouched and the
`final_report` field is still `None` — no deterministic failure message is
written into it. -/
theorem finalize_no_failure_message_counterexample :
    findFinalReport noReportState.task_results = none ∧
    extract_final_report noReportState = noReportState ∧
    (extract_final_report noReportState).final_report = Val.null :=
  ⟨rfl, rfl, rfl⟩

/-- C3 as amended: the finalize step copies the `"final_report"` value of
the first result record (in insertion order) carrying that key into the
state's `final_report` field; when no record carries the key the state is
returned unchanged — the field keeps its previous value (`None` for a
normal run) and no failure message is written. -/
theorem extract_final_report_first_carrier (s : AgentState) :
    (∀ k r, s.task_results.find? (fun p => (valGet p.2 ("final_report")).isSome)
          = some (k, r) →
        some (extract_final_report s).final_report = valGet r ("final_report")) ∧
    (s.task_results.find? (fun p => (valGet p.2 ("final_report")).isSome) = none →
        extract_final_report s = s) := by
  constructor
  · intro k r hf
    have hpred : (valGet r ("final_report")).isSome = true := by
      have := List.find?_some hf
      simpa using this
    obtain ⟨v, hv⟩ := Option.isSome_iff_exists.mp hpred
    have hfind : findFinalReport s.task_results = some v := by
      rw [findFinalReport_eq_find?, hf]
      simp [hv]
    simp [extract_final_report, hfind, hv]
  · intro hf
    have hfind : findFinalReport s.task_results = none := by
      rw [findFinalReport_eq_find?, hf]
      rfl
    simp [extract_final_report, hfind]

/-- Witness for C3 (amended): with no carrier the state is unchanged; with a
first carrier present its value is the one copied. -/
theorem extract_final_report_first_carrier_witness :
    extract_final_report noReportState = noReportState ∧
    some (extract_final_report nullReportState).final_report
      = valGet (final_report_failure_record ("boom")) ("final_report") :=
  ⟨(extract_final_report_first_carrier noReportState).2 rfl,
   (extract_final_report_first_carrier nullReportState).1 ("1")
     (final_report_failure_record ("boom")) rfl⟩

/-- C10: the finalize scan tests only key presence. When the first record
carrying `"final_report"` is the failure record of `final_report_node`
(value `None`), the state's `final_report` becomes `None`, and the result
does not depend on the later records at all — a usable report stored after
the failure record is never examined. -/
theorem finalize_stops_at_null_failure_record
    (s : AgentState) (pre post : List (String × Val)) (k e : String)
    (hs : s.task_results = pre ++ ((k, final_report_failure_record e) :: post))
    (hpre : ∀ p ∈ pre, valGet p.2 ("final_report") = none) :
    (extract_final_report s).final_report = Val.null ∧
    ∀ post2 : List (String × Val),
      (extract_final_report
          { s with task_results := pre ++ ((k, final_report_failure_record e) :: post2) }).final_report
        = Val.null := by
  have hval : valGet (final_report_failure_record e) ("final_report")
      = some Val.null := rfl
  have hscan : ∀ post2 : List (String × Val),
      findFinalReport (pre ++ ((k, final_report_failure_record e) :: post2))
        = some Val.null := by
    intro post2
    rw [findFinalReport_append_of_none pre _ hpre, findFinalReport_cons, hval]
  constructor
  · have : findFinalReport s.task_results = some Val.null := by
      rw [hs]
      exact hscan post
    simp [extract_final_report, this]
  · intro post2
    simp [extract_final_report, hscan post2]

/-- Witness for C10: in `nullReportState` the failure record at index 1
precedes a usable report at index 2, and finalize sets `final_report` to
`None`. -/
theorem finalize_stops_at_null_failure_record_witness :
    (extract_final_report nullReportState).final_report = Val.null :=
  (finalize_stops_at_null_failure_record nullReportState
    [(("0"), .dict [(("error"), .str ("x"))])]
    [(("2"), .dict [(("final_report"), .str ("usable report"))])]
    ("1") ("boom") rfl
    (by intro p hp; rw [List.mem_singleton] at hp; subst hp; rfl)).1

/-- C5 counterexample: with an empty `product_urls` list next to a populated
`primary_url` field, the scraper resolves no URL at all (`None`): it does
not fall back to the single-value field, which only applies when the prior
result has no `product_urls` list. -/
theorem scraper_empty_urls_counterexample :
    scraper_resolve_url emptyUrlsState scrapeRefTask = Val.null ∧
    valGet emptyUrlsResult ("primary_url") = some (.str ("http://a")) ∧
    Val.null ≠ Val.str ("http://a") :=
  ⟨rfl, rfl, fun h => Val.noConfusion h⟩

/-- C5 as amended: for a scrape task whose `from_task` references a prior
result exposing a `product_urls` list, an in-range `url_index` selects that
element, an out-of-range index on a nonempty list falls back to the element
at index 0, and an empty list resolves to no URL (`None`, which makes the
node return its no-URL error record); the `primary_url`/`url` single-value
fallback is never consulted in these cases. -/
theorem scraper_url_resolution
    (s : AgentState) (task : Task) (ft : String) (urls : List Val)
    (hq : task.query = none)
    (hft : task.from_task = some ft)
    (hne : ft ≠ "")
    (hcol : pyContainsChar ft ':' = true)
    (hurls : valGet ((dictGet s.task_results ((pySplit ft ':').getD 1 (""))).getD (.dict []))
        ("product_urls") = some (.list urls)) :
    (∀ i : Int, task.url_index = some i → 0 ≤ i → i < (urls.length : Int) →
        scraper_resolve_url s task = urls.getD i.toNat .null) ∧
    (∀ i : Int, task.url_index = some i → ¬(0 ≤ i ∧ i < (urls.length : Int)) →
        urls ≠ [] → scraper_resolve_url s task = urls.getD 0 .null) ∧
    (urls = [] → scraper_resolve_url s task = Val.null) := by
  have hbase : scraper_resolve_url s task
      = (if 0 ≤ task.url_index.getD 0 ∧ task.url_index.getD 0 < (urls.length : Int) then
          urls.getD (task.url_index.getD 0).toNat .null
        else if !urls.isEmpty then urls.getD 0 .null else .null) := by
    simp only [scraper_resolve_url, hq, hft, Val.isTruthy, Bool.false_eq_true,
      if_false]
    rw [if_pos (by simp [hne, hcol])]
    rw [hurls]
  refine ⟨?_, ?_, ?_⟩
  · intro i hi h0 hlen
    rw [hbase, hi]
    exact if_pos ⟨h0, hlen⟩
  · intro i hi hno hnil
    rw [hbase, hi]
    simp only [Option.getD_some]
    rw [if_neg hno, if_pos (by simp [hnil])]
  · intro hnil
    subst hnil
    rw [hbase]
    rw [if_neg (by rintro ⟨h1, h2⟩; simp only [List.length_nil, Nat.cast_zero] at h2; omega)]
    rfl

/-- Witness for C5 (amended): `url_index` 0 selects the first URL; the
out-of-range index 5 falls back to the first URL. -/
theorem scraper_url_resolution_witness :
    scraper_resolve_url twoUrlsState scrapeRefTask = .str ("http://a") ∧
    scraper_resolve_url twoUrlsState scrapeRefTaskIdx5 = .str ("http://a") :=
  ⟨(scraper_url_resolution twoUrlsState scrapeRefTask ("task:0")
      [.str ("http://a"), .str ("http://b")] rfl rfl (by decide) rfl rfl).1
      0 rfl (by decide) (by decide),
   (scraper_url_resolution twoUrlsState scrapeRefTaskIdx5 ("task:0")
      [.str ("http://a"), .str ("http://b")] rfl rfl (by decide) rfl rfl).2.1
      5 rfl (by decide) (by simp)⟩

lemma compare_foldl_eq_filterMap (s : AgentState) (refs : List String)
    (acc : List Val) :
    refs.foldl (fun products ref =>
      let r := pyStrip ref
      if pyContainsChar r ':' then
        let task_idx := (pySplit r ':').getD 1 ("")
        let prev := (dictGet s.task_results task_idx).getD (.dict [])
        let product_data := (valGet prev ("product_data")).getD .null
        if product_data.isTruthy then products ++ [product_data] else products
      else products) acc
    = acc ++ refs.filterMap (fun ref => resolveProductData s (pyStrip ref)) := by
  induction refs generalizing acc with
  | nil => simp
  | cons ref rest ih =>
      rw [List.foldl_cons, List.filterMap_cons]
      by_cases hc : pyContainsChar (pyStrip ref) ':' = true
      · by_cases ht : (((valGet ((dictGet s.task_results
            ((pySplit (pyStrip ref) ':').getD 1 (""))).getD (.dict []))
            ("product_data")).getD .null).isTruthy) = true
        · have hres : resolveProductData s (pyStrip ref)
              = some ((valGet ((dictGet s.task_results
                  ((pySplit (pyStrip ref) ':').getD 1 (""))).getD (.dict []))
                  ("product_data")).getD .null) := by
            simp only [resolveProductData]
            rw [if_pos hc, if_pos ht]
          simp only [hc, if_true, ht, hres, ih]
          simp
        · have hres : resolveProductData s (pyStrip ref) = none := by
            simp only [resolveProductData]
            rw [if_pos hc, if_neg ht]
          simp only [hc, if_true, ht, if_false, hres, ih]
          simp
      · have hres : resolveProductData s (pyStrip ref) = none := by
          simp only [resolveProductData]
          rw [if_neg hc]
        simp only [hc, if_false, hres, ih]
        simp

/-- C9: the compare handler resolves its `from_task` references
independently in the order listed (split on comma, strip, index after the
colon), collecting exactly the truthy `product_data` values of the
referenced results in that order — unreferenced indices are ignored — and
with fewer than two collected products it returns the insufficient-data
record instead of raising. -/
theorem compare_reference_resolution
    (s : AgentState) (task : Task) (ft : String)
    (hft : task.from_task = some ft) (hne : ft ≠ "") :
    compare_collect s task
        = (pySplit ft ',').filterMap (fun ref => resolveProductData s (pyStrip ref)) ∧
    ((compare_collect s task).length < 2 →
      compare_agent_check s task = some insufficient_products_record) := by
  constructor
  · simp only [compare_collect, hft]
    rw [if_pos hne, compare_foldl_eq_filterMap, List.nil_append]
  · intro hlen
    simp [compare_agent_check, hlen]

/-- Witness for C9: `from_task = "task:0,task:2"` with populated results at
indices 0, 1, 2 collects exactly the product data of tasks 0 and 2 in that
order, and a single reference triggers the insufficient-data record. -/
theorem compare_reference_resolution_witness :
    compare_collect compareState compareTask
        = [.dict [(("title"), .str ("A"))], .dict [(("title"), .str ("B"))]] ∧
    compare_agent_check compareState compareTaskShort
      = some insufficient_products_record := by
  constructor
  · rw [(compare_reference_resolution compareState compareTask ("task:0,task:2")
      rfl (by decide)).1]
    rfl
  · exact (compare_reference_resolution compareState compareTaskShort ("task:0")
      rfl (by decide)).2 (by decide)

/-- C6: the fallback plan constructor is a total function of the query; a
query containing a URL match yields exactly the 4-task
scrape/summarize/sentiment/final_report plan with intent
`product_analysis`, and any other query yields exactly the 5-task
search/scrape/summarize/sentiment/final_report plan with intent
`product_research`. -/
theorem fallback_plan_by_url (q : String) :
    ((searchUrl q.toList).isSome = true →
        _create_fallback_plan q =
          { intent := ("product_analysis")
            tasks := [
              { action := ("scrape"), query := some q },
              { action := ("summarize"), from_task := some ("task:0") },
              { action := ("sentiment"), from_task := some ("task:0") },
              { action := ("final_report") }]
            reasoning := some ("Fallback plan (LLM unavailable)") }) ∧
    ((searchUrl q.toList).isSome = false →
        _create_fallback_plan q =
          { intent := ("product_research")
            tasks := [
              { action := ("search"), query := some q },
              { action := ("scrape"), from_task := some ("task:0") },
              { action := ("summarize"), from_task := some ("task:1") },
              { action := ("sentiment"), from_task := some ("task:1") },
              { action := ("final_report") }]
            reasoning := some ("Fallback plan (LLM unavailable)") }) := by
  constructor
  · intro h
    simp only [_create_fallback_plan]
    rw [if_pos h]
  · intro h
    simp only [_create_fallback_plan]
    rw [if_neg (by rw [h]; exact Bool.false_ne_true)]

/-- Witness for C6: a URL query yields the 4-task plan, a plain query the
5-task plan. -/
theorem fallback_plan_by_url_witness :
    _create_fallback_plan ("https://example.com/x") =
        { intent := ("product_analysis")
          tasks := [
            { action := ("scrape"), query := some ("https://example.com/x") },
            { action := ("summarize"), from_task := some ("task:0") },
            { action := ("sentiment"), from_task := some ("task:0") },
            { action := ("final_report") }]
          reasoning := some ("Fallback plan (LLM unavailable)") } ∧
    _create_fallback_plan ("wireless headphones") =
        { intent := ("product_research")
          tasks := [
            { action := ("search"), query := some ("wireless headphones") },
            { action := ("scrape"), from_task := some ("task:0") },
            { action := ("summarize"), from_task := some ("task:1") },
            { action := ("sentiment"), from_task := some ("task:1") },
            { action := ("final_report") }]
          reasoning := some ("Fallback plan (LLM unavailable)") } :=
  ⟨(fallback_plan_by_url ("https://example.com/x")).1 rfl,
   (fallback_plan_by_url ("wireless headphones")).2 rfl⟩

lemma extract_plan_idx (s : AgentState) :
    (extract_final_report s).plan = s.plan ∧
    (extract_final_report s).current_task_index = s.current_task_index := by
  unfold extract_final_report
  cases findFinalReport s.task_results <;> exact ⟨rfl, rfl⟩

lemma calculate_progress_planner {s : AgentState} {P : ResearchPlan}
    (hp : s.plan = some P) (hne : P.tasks ≠ []) :
    calculate_progress s ("planner") = progAt (P.tasks.length : ℚ) 1 := by
  unfold calculate_progress progAt
  rw [hp]
  simp only [planTasks]
  rw [if_neg (by simp [List.isEmpty_iff, hne]), if_pos trivial]

lemma calculate_progress_executor {s : AgentState} {P : ResearchPlan}
    (hp : s.plan = some P) (hne : P.tasks ≠ []) :
    calculate_progress s ("task_executor")
      = progAt (P.tasks.length : ℚ) (1 + (s.current_task_index : ℚ)) := by
  unfold calculate_progress progAt
  rw [hp]
  simp only [planTasks]
  rw [if_neg (by simp [List.isEmpty_iff, hne]), if_neg (by decide), if_pos trivial]

lemma calculate_progress_finalize {s : AgentState} {P : ResearchPlan}
    (hp : s.plan = some P) (hne : P.tasks ≠ []) :
    calculate_progress s ("finalize")
      = progAt (P.tasks.length : ℚ) ((P.tasks.length : ℚ) + 1) := by
  unfold calculate_progress progAt
  rw [hp]
  simp only [planTasks]
  rw [if_neg (by simp [List.isEmpty_iff, hne]), if_neg (by decide),
    if_neg (by decide), if_pos trivial]

lemma progAt_mono {n : ℚ} (hn : 0 ≤ n) {c1 c2 : ℚ} (h : c1 ≤ c2) :
    progAt n c1 ≤ progAt n c2 := by
  have hden : (0:ℚ) < n + 2 := by linarith
  unfold progAt
  apply min_le_min _ le_rfl
  apply mul_le_mul_of_nonneg_right _ (by norm_num : (0:ℚ) ≤ 100)
  rw [div_le_div_iff₀ hden hden]
  exact mul_le_mul_of_nonneg_right h hden.le

lemma executorProgressList_succ (d : String → Option Handler) (fuel : Nat)
    (s : AgentState) :
    executorProgressList d (fuel + 1) s =
      calculate_progress (task_executor_node d s) ("task_executor") ::
        (if should_continue_tasks (task_executor_node d s) = ("continue") then
          executorProgressList d fuel (task_executor_node d s)
        else
          [calculate_progress (extract_final_report (task_executor_node d s))
            ("finalize")]) := rfl

lemma executorProgressList_closed (d : String → Option Handler) :
    ∀ (fuel : Nat) (s : AgentState) (P : ResearchPlan),
      s.plan = some P →
      s.current_task_index < P.tasks.length →
      P.tasks.length ≤ s.current_task_index + fuel →
      executorProgressList d fuel s
        = ((List.range (P.tasks.length - s.current_task_index)).map
            (fun (j : Nat) => progAt (P.tasks.length : ℚ)
              ((s.current_task_index : ℚ) + (j : ℚ) + 2)))
          ++ [progAt (P.tasks.length : ℚ) ((P.tasks.length : ℚ) + 1)] := by
  intro fuel
  induction fuel with
  | zero => intro s P hp hlt hle; omega
  | succ fuel ih =>
      intro s P hp hlt hle
      have hne : P.tasks ≠ [] := by
        intro h
        rw [h] at hlt
        simp at hlt
      have hlt2 : s.current_task_index < (planTasks s.plan).length := by
        rw [hp]
        exact hlt
      have hplan1 : (task_executor_node d s).plan = s.plan := executor_plan d s
      have hidx1 : (task_executor_node d s).current_task_index
          = s.current_task_index + 1 := executor_idx_of_lt d s hlt2
      have hcalc1 : calculate_progress (task_executor_node d s) ("task_executor")
          = progAt (P.tasks.length : ℚ) ((s.current_task_index : ℚ) + (0:ℚ) + 2) := by
        rw [calculate_progress_executor (by rw [hplan1, hp]) hne, hidx1]
        congr 1
        push_cast
        ring
      rw [executorProgressList_succ]
      by_cases hc : s.current_task_index + 1 < P.tasks.length
      · have hsc : should_continue_tasks (task_executor_node d s) = ("continue") := by
          apply should_continue_of_lt
          rw [hplan1, hp, hidx1]
          exact hc
        rw [hsc, if_pos rfl]
        have ihres := ih (task_executor_node d s) P (by rw [hplan1, hp])
          (by rw [hidx1]; exact hc) (by rw [hidx1]; omega)
        rw [hidx1] at ihres
        rw [ihres, hcalc1]
        have hr : P.tasks.length - s.current_task_index
            = (P.tasks.length - (s.current_task_index + 1)) + 1 := by omega
        rw [hr, List.range_succ_eq_map, List.map_cons, List.map_map,
          List.cons_append]
        congr 1
        congr 1
        apply List.map_congr_left
        intro a _
        simp only [Function.comp_apply]
        congr 1
        push_cast
        ring
      · have hsc : should_continue_tasks (task_executor_node d s) = ("end") := by
          apply should_continue_of_done
          rw [hplan1, hp, hidx1]
          exact hc
        rw [hsc, if_neg (by decide), hcalc1]
        have hfin : calculate_progress
            (extract_final_report (task_executor_node d s)) ("finalize")
            = progAt (P.tasks.length : ℚ) ((P.tasks.length : ℚ) + 1) := by
          apply calculate_progress_finalize _ hne
          rw [(extract_plan_idx _).1, hplan1, hp]
        rw [hfin]
        have hr : P.tasks.length - s.current_task_index = 1 := by omega
        rw [hr]
        have hone : List.range 1 = [0] := rfl
        rw [hone]
        simp only [List.map_cons, List.map_nil, Nat.cast_zero,
          List.singleton_append]

/-- C4 as amended: the reported percentage follows the formula
`min(100, 100 * completed / (N + 2))` with `completed` as specified, and
over a run of a plan with `N ≥ 1` tasks the sequence of reported
percentages is non-decreasing; its final value, reported at the finalize
step, is `100 * (N + 1) / (N + 2)`, which is strictly below `100` — the
sequence never reaches `100`. -/
theorem progress_formula_monotone_final
    (dispatch : String → Option Handler) (s : AgentState) (P : ResearchPlan)
    (hp : s.plan = some P) (h0 : s.current_task_index = 0)
    (hN : 1 ≤ P.tasks.length) :
    (∀ (t : AgentState) (name : String), planTasks t.plan ≠ [] →
        calculate_progress t name
          = min 100 ((100 * spec_completed_steps t name)
              / (((planTasks t.plan).length : ℚ) + 2))) ∧
    (runProgressList dispatch P.tasks.length s).Pairwise (· ≤ ·) ∧
    (runProgressList dispatch P.tasks.length s).getLast?
        = some (((P.tasks.length : ℚ) + 1) / ((P.tasks.length : ℚ) + 2) * 100) ∧
    ((P.tasks.length : ℚ) + 1) / ((P.tasks.length : ℚ) + 2) * 100 < 100 := by
  have hne : P.tasks ≠ [] := by
    intro h
    rw [h] at hN
    simp at hN
  have hcast : (0:ℚ) ≤ (P.tasks.length : ℚ) := Nat.cast_nonneg _
  have hclosed := executorProgressList_closed dispatch P.tasks.length s P hp
    (by omega) (by omega)
  rw [h0] at hclosed
  simp only [Nat.sub_zero, Nat.cast_zero, zero_add] at hclosed
  have hlist : runProgressList dispatch P.tasks.length s
      = progAt (P.tasks.length : ℚ) 1 ::
        (((List.range P.tasks.length).map
            (fun (j : Nat) => progAt (P.tasks.length : ℚ) ((j : ℚ) + 2)))
          ++ [progAt (P.tasks.length : ℚ) ((P.tasks.length : ℚ) + 1)]) := by
    unfold runProgressList
    rw [hclosed, calculate_progress_planner hp hne]
  have hlt100 : ((P.tasks.length : ℚ) + 1) / ((P.tasks.length : ℚ) + 2) * 100
      < 100 := by
    have hden : (0:ℚ) < (P.tasks.length : ℚ) + 2 := by linarith
    have hfrac : ((P.tasks.length : ℚ) + 1) / ((P.tasks.length : ℚ) + 2) < 1 := by
      rw [div_lt_one hden]
      linarith
    have := mul_lt_mul_of_pos_right hfrac (by norm_num : (0:ℚ) < 100)
    rwa [one_mul] at this
  refine ⟨?_, ?_, ?_, hlt100⟩
  · intro t name hnet
    unfold calculate_progress spec_completed_steps
    rw [if_neg (by simp [List.isEmpty_iff, hnet])]
    split_ifs <;> (rw [min_comm]; congr 1; ring)
  · rw [hlist, List.pairwise_cons]
    constructor
    · intro b hb
      rw [List.mem_append] at hb
      rcases hb with hb | hb
      · rcases List.mem_map.mp hb with ⟨j, _, rfl⟩
        apply progAt_mono hcast
        have : (0:ℚ) ≤ (j:ℚ) := Nat.cast_nonneg j
        linarith
      · rw [List.mem_singleton] at hb
        subst hb
        apply progAt_mono hcast
        linarith
    · rw [List.pairwise_append]
      refine ⟨?_, List.pairwise_singleton _ _, ?_⟩
      · apply (List.pairwise_lt_range P.tasks.length).map
        intro a b hab
        apply progAt_mono hcast
        have : (a:ℚ) < (b:ℚ) := by exact_mod_cast hab
        linarith
      · intro x hx y hy
        rw [List.mem_singleton] at hy
        subst hy
        rcases List.mem_map.mp hx with ⟨j, hj, rfl⟩
        apply progAt_mono hcast
        have hj2 : j + 1 ≤ P.tasks.length := List.mem_range.mp hj
        have : ((j:ℚ)) + 1 ≤ (P.tasks.length : ℚ) := by exact_mod_cast hj2
        linarith
  · rw [hlist, ← List.cons_append, List.getLast?_concat]
    congr 1
    unfold progAt
    rw [min_eq_left hlt100.le]

/-- Witness for C4 (amended): the 3-task plan under always-failing handlers
reports a non-decreasing sequence ending at `4/5 * 100 = 80`, not 100. -/
theorem progress_formula_monotone_final_witness :
    (runProgressList failingDispatch 3 sampleState3).Pairwise (· ≤ ·) ∧
    (runProgressList failingDispatch 3 sampleState3).getLast?
        = some (((samplePlan3.tasks.length : ℚ) + 1)
            / ((samplePlan3.tasks.length : ℚ) + 2) * 100) := by
  obtain ⟨_, h2, h3, _⟩ := progress_formula_monotone_final failingDispatch
    sampleState3 samplePlan3 rfl rfl (by decide)
  exact ⟨h2, h3⟩

/-- C4 counterexample: for the 1-task run the final reported percentage is
`200/3 ≈ 66.7`, not 100 — the claim that the sequence ends at 100 is false. -/
theorem progress_final_below_100_counterexample :
    (runProgressList failingDispatch 1 sampleState1).getLast? = some ((200:ℚ)/3) ∧
    ((200:ℚ)/3) ≠ 100 := by
  constructor
  · have h1 : (runProgressList failingDispatch 1 sampleState1).getLast?
        = some (calculate_progress (extract_final_report
            (task_executor_node failingDispatch sampleState1)) ("finalize")) := rfl
    rw [h1, calculate_progress_finalize (P := samplePlan1) rfl (by simp [samplePlan1])]
    have hlen : ((samplePlan1.tasks.length : ℚ)) = 1 := by
      norm_num [samplePlan1]
    rw [hlen]
    unfold progAt
    rw [min_eq_left (by norm_num)]
    norm_num
  · norm_num

end Sift
